import Mathlib

/-!
Verification of the typed-graphql declaration package (`graphql.d.ts`) against
its natural-language specification.  The file shallowly embeds, in Lean 4:

* the declaration shapes that the claims talk about (field lists of the
  declared interfaces, the literal node-kind constants, the declared
  signature of `find`);
* the GraphQL type-wrapper algebra (`GraphQLList` / `GraphQLNonNull` and the
  nullable / named classification unions of `type/definition.js`);
* spec-modelled versions of the behavioural components whose implementations
  are not part of this repository (the repository ships declarations only):
  the parser / printer pair, the validator, and the executor, each modelled
  from the specification's description.

Definitions are executable; claims are settled by theorems at the end of the
file.
-/

namespace GraphQL

/-! ## Node-kind constants (`language/kinds.js`, module declaration) -/

/- Embedding of the literal string constants of the `Kind` namespace,
transcribed one-for-one from the `declare module` section of
`src/graphql.d.ts` (the `namespace Kind` block).  Note the declared value of
`ENUM_TYPE_DEFINITION` is transcribed exactly as the source gives it. -/
namespace Kind

def NAME : String := "Name"

def DOCUMENT : String := "Document"

def OPERATION_DEFINITION : String := "OperationDefinition"

def VARIABLE_DEFINITION : String := "VariableDefinition"

def VARIABLE : String := "Variable"

def SELECTION_SET : String := "SelectionSet"

def FIELD : String := "Field"

def ARGUMENT : String := "Argument"

def FRAGMENT_SPREAD : String := "FragmentSpread"

def INLINE_FRAGMENT : String := "InlineFragment"

def FRAGMENT_DEFINITION : String := "FragmentDefinition"

def INT : String := "IntValue"

def FLOAT : String := "FloatValue"

def STRING : String := "StringValue"

def BOOLEAN : String := "BooleanValue"

def ENUM : String := "EnumValue"

def LIST : String := "ListValue"

def OBJECT : String := "ObjectValue"

def OBJECT_FIELD : String := "ObjectField"

def DIRECTIVE : String := "Directive"

def NAMED_TYPE : String := "NamedType"

def LIST_TYPE : String := "ListType"

def NON_NULL_TYPE : String := "NonNullType"

def OBJECT_TYPE_DEFINITION : String := "ObjectTypeDefinition"

def FIELD_DEFINITION : String := "FieldDefinition"

def INPUT_VALUE_DEFINITION : String := "InputValueDefinition"

def INTERFACE_TYPE_DEFINITION : String := "InterfaceTypeDefinition"

def UNION_TYPE_DEFINITION : String := "UnionTypeDefinition"

def SCALAR_TYPE_DEFINITION : String := "ScalarTypeDefinition"

def ENUM_TYPE_DEFINITION : String := "UnionTypeDefinition"

def ENUM_VALUE_DEFINITION : String := "EnumValueDefinition"

def INPUT_OBJECT_TYPE_DEFINITION : String := "InputObjectTypeDefinition"

def TYPE_EXTENSION_DEFINITION : String := "TypeExtensionDefinition"

def DIRECTIVE_DEFINITION : String := "DirectiveDefinition"

end Kind

/-- Literal `kind` field types of the AST node interfaces that declare one in
the `declare module` section (e.g. `interface EnumTypeDefinition \x7b kind:
"EnumTypeDefinition"; ... \x7d`).  Pairs are (interface name, declared literal
kind). -/
def interfaceKindLiterals : List (String × String) :=
  [ ("OperationDefinition", "OperationDefinition")
  , ("VariableDefinition", "VariableDefinition")
  , ("FragmentDefinition", "FragmentDefinition")
  , ("ObjectTypeDefinition", "ObjectTypeDefinition")
  , ("FieldDefinition", "FieldDefinition")
  , ("InputValueDefinition", "InputValueDefinition")
  , ("InterfaceTypeDefinition", "InterfaceTypeDefinition")
  , ("UnionTypeDefinition", "UnionTypeDefinition")
  , ("ScalarTypeDefinition", "ScalarTypeDefinition")
  , ("EnumTypeDefinition", "EnumTypeDefinition")
  , ("EnumValueDefinition", "EnumValueDefinition")
  , ("InputObjectTypeDefinition", "InputObjectTypeDefinition")
  , ("TypeExtensionDefinition", "TypeExtensionDefinition") ]

/-- Association of each `Kind` constant to the interface it names, for the
constants whose interface declares a literal `kind` (value of the constant,
interface name). -/
def kindConstantTable : List (String × String) :=
  [ (Kind.OPERATION_DEFINITION, "OperationDefinition")
  , (Kind.VARIABLE_DEFINITION, "VariableDefinition")
  , (Kind.FRAGMENT_DEFINITION, "FragmentDefinition")
  , (Kind.OBJECT_TYPE_DEFINITION, "ObjectTypeDefinition")
  , (Kind.FIELD_DEFINITION, "FieldDefinition")
  , (Kind.INPUT_VALUE_DEFINITION, "InputValueDefinition")
  , (Kind.INTERFACE_TYPE_DEFINITION, "InterfaceTypeDefinition")
  , (Kind.UNION_TYPE_DEFINITION, "UnionTypeDefinition")
  , (Kind.SCALAR_TYPE_DEFINITION, "ScalarTypeDefinition")
  , (Kind.ENUM_TYPE_DEFINITION, "EnumTypeDefinition")
  , (Kind.ENUM_VALUE_DEFINITION, "EnumValueDefinition")
  , (Kind.INPUT_OBJECT_TYPE_DEFINITION, "InputObjectTypeDefinition")
  , (Kind.TYPE_EXTENSION_DEFINITION, "TypeExtensionDefinition") ]

/-- Declared literal kind of the interface of the given name, when the
interface declares one. -/
def interfaceKindOf (iface : String) : Option String :=
  (interfaceKindLiterals.find? (fun p => p.1 = iface)).map Prod.snd

/-- All `Kind` constant values in declaration order (module declaration). -/
def kindConstantValues : List String :=
  [ Kind.NAME, Kind.DOCUMENT, Kind.OPERATION_DEFINITION, Kind.VARIABLE_DEFINITION
  , Kind.VARIABLE, Kind.SELECTION_SET, Kind.FIELD, Kind.ARGUMENT
  , Kind.FRAGMENT_SPREAD, Kind.INLINE_FRAGMENT, Kind.FRAGMENT_DEFINITION
  , Kind.INT, Kind.FLOAT, Kind.STRING, Kind.BOOLEAN, Kind.ENUM, Kind.LIST
  , Kind.OBJECT, Kind.OBJECT_FIELD, Kind.DIRECTIVE, Kind.NAMED_TYPE
  , Kind.LIST_TYPE, Kind.NON_NULL_TYPE, Kind.OBJECT_TYPE_DEFINITION
  , Kind.FIELD_DEFINITION, Kind.INPUT_VALUE_DEFINITION
  , Kind.INTERFACE_TYPE_DEFINITION, Kind.UNION_TYPE_DEFINITION
  , Kind.SCALAR_TYPE_DEFINITION, Kind.ENUM_TYPE_DEFINITION
  , Kind.ENUM_VALUE_DEFINITION, Kind.INPUT_OBJECT_TYPE_DEFINITION
  , Kind.TYPE_EXTENSION_DEFINITION, Kind.DIRECTIVE_DEFINITION ]

/-! ## Declared interface field lists (execution result / context shapes) -/

/-- Field names of the top-level `interface ExecutionContext` declaration of
`src/graphql.d.ts` (the one outside the `declare module` block, lines 47-54):
`schema`, `fragments`, `rootValue`, `operation`, `variableValues`, `errors`. -/
def executionContextFields : List String :=
  ["schema", "fragments", "rootValue", "operation", "variableValues", "errors"]

/-- Field names of the `interface ExecutionContext` declaration inside the
`declare module` block (lines 1180-1188), which additionally declares
`contextValue`. -/
def executionContextModuleFields : List String :=
  ["schema", "fragments", "rootValue", "contextValue", "operation",
   "variableValues", "errors"]

/-- Both `ExecutionContext` declarations present in the source, as field-name
lists, in source order. -/
def executionContextDecls : List (List String) :=
  [executionContextFields, executionContextModuleFields]

/-- Field list of `interface GraphQLResult`: (name, is optional).  Both
`data` and `errors` are declared optional (`data?`, `errors?`). -/
def graphQLResultFields : List (String × Bool) :=
  [("data", true), ("errors", true)]

/-- Field list of `interface ExecutionResult`: `data` is declared required,
`errors` optional. -/
def executionResultFields : List (String × Bool) :=
  [("data", false), ("errors", true)]

/-! ## Declared TypeScript signature of `find` (`jsutils/find.js`) -/

/-- Syntax of the TypeScript type expressions used by the embedded
declarations. -/
inductive TSType where
  | tvar (n : String)
  | array (t : TSType)
  | fn1 (param : TSType) (ret : TSType)
  | boolean
  | undef
  | unionWith (a : TSType) (b : TSType)
deriving DecidableEq, Repr

/-- Whether a TypeScript type expression mentions `undefined` anywhere
(so that a declared return type admits an absent result). -/
def TSType.mentionsUndef : TSType → Bool
  | .tvar _ => false
  | .array t => t.mentionsUndef
  | .fn1 p r => p.mentionsUndef || r.mentionsUndef
  | .boolean => false
  | .undef => true
  | .unionWith a b => a.mentionsUndef || b.mentionsUndef

/-- Declared function signature shape: type parameters, named value
parameters, return type. -/
structure TSFunDecl where
  name : String
  typeParams : List String
  params : List (String × TSType)
  ret : TSType
deriving DecidableEq, Repr

/-- Embedding of `declare function find<T>(list: Array<T>, predicate:
(item: T) => boolean): T;` — identical at both of its occurrences in the
source (top level and inside the `declare module` block). -/
def findDecl : TSFunDecl :=
  { name := "find"
  , typeParams := ["T"]
  , params :=
      [ ("list", .array (.tvar "T"))
      , ("predicate", .fn1 (.tvar "T") .boolean) ]
  , ret := .tvar "T" }

/-! ## Type system (`type/definition.js`)

The declared unions are mirrored structurally: `GraphQLNamedType` is the six
named (unwrapped) type classes, `GraphQLNullableType` adds `GraphQLList`,
and `GraphQLType` adds `GraphQLNonNull`.  `GraphQLList.ofType` is declared as
`GraphQLType` (any type), while `GraphQLNonNull.ofType` is declared as
`GraphQLNullableType`, so a `NonNull` can never directly wrap a `NonNull`. -/

/-- Named (unwrapped) GraphQL types: the members of the declared
`GraphQLNamedType` union, each carrying its name. -/
inductive GraphQLNamedType where
  | scalar (name : String)
  | object (name : String)
  | iface (name : String)
  | union (name : String)
  | enum (name : String)
  | inputObject (name : String)
deriving DecidableEq, Repr

mutual

/-- Members of the declared `GraphQLNullableType` union: every named type,
plus `GraphQLList` (whose `ofType` is declared as any `GraphQLType`). -/
inductive GraphQLNullableType where
  | named (t : GraphQLNamedType)
  | list (ofType : GraphQLType)
deriving DecidableEq, Repr

/-- Members of the declared `GraphQLType` union: every nullable type, plus
`GraphQLNonNull`, whose `ofType` field is declared with the narrower type
`GraphQLNullableType`. -/
inductive GraphQLType where
  | nullable (t : GraphQLNullableType)
  | nonNull (ofType : GraphQLNullableType)
deriving DecidableEq, Repr

end

/-- Whether a type is a `GraphQLNonNull` wrapper. -/
def GraphQLType.isNonNull : GraphQLType → Bool
  | .nonNull _ => true
  | .nullable _ => false

/-- The `ofType` field of a wrapper type (`GraphQLList.ofType` or
`GraphQLNonNull.ofType`), viewed as a `GraphQLType`; `none` on non-wrapper
types. -/
def GraphQLType.wrappedType : GraphQLType → Option GraphQLType
  | .nonNull t => some (.nullable t)
  | .nullable (.list t) => some t
  | .nullable (.named _) => none

/-- Model of calling the declared constructor `new GraphQLNonNull(type)`:
its parameter is declared as `GraphQLNullableType`, so applying it to a value
of the `GraphQLNonNull` class is rejected by the type checker (`none`);
otherwise it produces the `NonNull` wrapper. -/
def GraphQLNonNull.construct : GraphQLType → Option GraphQLType
  | .nullable t => some (.nonNull t)
  | .nonNull _ => none

/-- Declared helper `getNullableType`: strips at most one `NonNull` layer.
Modelled from the spec: the body of `getNullableType` is not part of this
repository (only its declaration is); §4.4 describes it as the unwrapping
helper that strips wrapper layers to reach the nullable type beneath. -/
def getNullableType : GraphQLType → GraphQLNullableType
  | .nonNull t => t
  | .nullable t => t

mutual

/-- Declared helper `getNamedType` on `GraphQLType`.  Modelled from the spec:
the body of `getNamedType` is not part of this repository (only its
declaration `getNamedType(type: GraphQLType): GraphQLNamedType` is); §4.4
describes it as stripping `List` / `NonNull` wrapper layers to reach the
named (leaf / composite) type beneath. -/
def getNamedType : GraphQLType → GraphQLNamedType
  | .nullable t => getNamedTypeNullable t
  | .nonNull t => getNamedTypeNullable t

/-- Wrapper-stripping on nullable types, the inner loop of `getNamedType`. -/
def getNamedTypeNullable : GraphQLNullableType → GraphQLNamedType
  | .named t => t
  | .list t => getNamedType t

end

/-- View of a named type as a `GraphQLType` (injection along the declared
subset unions). -/
def GraphQLNamedType.toType (t : GraphQLNamedType) : GraphQLType :=
  .nullable (.named t)

/-- A single `List` or `NonNull` wrapper layer. -/
inductive Wrapper where
  | listW
  | nonNullW
deriving DecidableEq, Repr

/-- Applying one wrapper layer via the declared constructors; `NonNull` over
`NonNull` is rejected (the constructor parameter type excludes it). -/
def applyWrapper : Wrapper → GraphQLType → Option GraphQLType
  | .listW, t => some (.nullable (.list t))
  | .nonNullW, t => GraphQLNonNull.construct t

/-- Applying a stack of wrapper layers, innermost first. -/
def applyWrappers : List Wrapper → GraphQLType → Option GraphQLType
  | [], t => some t
  | w :: ws, t =>
    match applyWrappers ws t with
    | none => none
    | some u => applyWrapper w u

/-! ## Possible types of abstract types (older and newer declared APIs)

`GraphQLUnionType` declares `getPossibleTypes` / `isPossibleType` in the
top-level section and `getTypes` in the module section;
`GraphQLSchema.getPossibleTypes` exists in the module section.  Their bodies
are not part of this repository; both behaviours are modelled from §4.4 of
the spec: a union's possible types are its declared member list, an
interface's possible types are the object types of the schema's type map
that declare conformance to it. -/

/-- Object type as the possible-types computation sees it: a name plus the
names of the interfaces it declares conformance to. -/
structure ObjectTypeM where
  name : String
  interfaces : List String
deriving DecidableEq, Repr

/-- Union type: its declared member list (`config.types`). -/
structure UnionTypeM where
  name : String
  types : List ObjectTypeM
deriving DecidableEq, Repr

/-- Interface type: just a name; its possible types are computed from the
schema's type map. -/
structure InterfaceTypeM where
  name : String
deriving DecidableEq, Repr

/-- Members of the declared `GraphQLAbstractType` union. -/
inductive AbstractTypeM where
  | iface (i : InterfaceTypeM)
  | union (u : UnionTypeM)
deriving DecidableEq, Repr

/-- Schema as the possible-types computation sees it: the object types of
its name→type registry, in registration order. -/
structure SchemaM where
  objectTypes : List ObjectTypeM
deriving DecidableEq, Repr

/-- Older declared API `GraphQLUnionType.getPossibleTypes()`.  Modelled from
the spec: for a union, the declared member list. -/
def UnionTypeM.getPossibleTypes (u : UnionTypeM) : List ObjectTypeM :=
  u.types

/-- Older declared API `GraphQLUnionType.isPossibleType(type)`.  Modelled
from the spec: membership in the union's possible types. -/
def UnionTypeM.isPossibleType (u : UnionTypeM) (t : ObjectTypeM) : Bool :=
  u.getPossibleTypes.contains t

/-- Newer declared API `GraphQLUnionType.getTypes()` of the module section.
Modelled from the spec: the declared member list. -/
def UnionTypeM.getTypes (u : UnionTypeM) : List ObjectTypeM :=
  u.types

/-- Older declared API `GraphQLInterfaceType.getPossibleTypes()`.  Modelled
from the spec: the object types of the schema's map that declare conformance
to the interface, in map order. -/
def InterfaceTypeM.getPossibleTypes (s : SchemaM) (i : InterfaceTypeM) :
    List ObjectTypeM :=
  s.objectTypes.filter (fun o => o.interfaces.contains i.name)

/-- Newer declared API `GraphQLSchema.getPossibleTypes(abstractType)` of the
module section.  Modelled from the spec: union member list for unions, the
conforming object types of the type map for interfaces. -/
def SchemaM.getPossibleTypes (s : SchemaM) : AbstractTypeM → List ObjectTypeM
  | .union u => u.types
  | .iface i => s.objectTypes.filter (fun o => o.interfaces.contains i.name)

/-! ## Executor (`execution/*.js`)

Only the declarations of `graphql` / `execute` are part of this repository.
The executor below is modelled from the spec (§4.7, §5, §7, §8): operation
selection, pre-execution coercion (a required argument omitted with no
default rejects the request before execution starts), field resolution with
resolver failures caught at the field boundary, and value completion with
`NonNull` bubbling to the nearest nullable ancestor position, root-level
field slots absorbing any remaining failure. -/

mutual

/-- Runtime / response values: the JSON-like data tree. -/
inductive JValue where
  | null
  | str (s : String)
  | obj (fields : JFields)
deriving DecidableEq, Repr

/-- Ordered key/value slots of a response object. -/
inductive JFields where
  | nil
  | cons (key : String) (value : JValue) (rest : JFields)
deriving DecidableEq, Repr

end

/-- Input-position types for arguments, as needed by the claims: the
`String` scalar and `NonNull` wrapping. -/
inductive InTypeE where
  | string
  | nonNull (t : InTypeE)
deriving DecidableEq, Repr

/-- Whether an input type is `NonNull`-wrapped (a required argument when it
has no default). -/
def InTypeE.isRequired : InTypeE → Bool
  | .nonNull _ => true
  | .string => false

/-- Argument definition of a field: name, declared input type, optional
default value. -/
structure ArgDefE where
  name : String
  type : InTypeE
  defaultValue : Option JValue
deriving Repr

mutual

/-- Output-position types as needed by the claims: the `String` scalar,
object types with fields, and `NonNull` wrapping. -/
inductive OutTypeE where
  | scalarString
  | object (name : String) (fields : FieldListE)

  | nonNull (t : OutTypeE)

/-- Field definitions of an object type, in declaration order. -/
inductive FieldListE where
  | nil
  | cons (fd : FieldDefE) (rest : FieldListE)

/-- A field definition: name, argument definitions, output type, and the
host-supplied resolver (source value and coerced arguments to a value, or a
thrown error). -/
inductive FieldDefE where
  | mk (name : String) (args : List ArgDefE) (type : OutTypeE)
      (resolve : JValue → List (String × JValue) → Except String JValue)

end

/-- Name of a field definition. -/
def FieldDefE.name : FieldDefE → String
  | .mk n _ _ _ => n

/-- Argument definitions of a field definition. -/
def FieldDefE.args : FieldDefE → List ArgDefE
  | .mk _ a _ _ => a

/-- Output type of a field definition. -/
def FieldDefE.type : FieldDefE → OutTypeE
  | .mk _ _ t _ => t

/-- Resolver of a field definition. -/
def FieldDefE.resolve : FieldDefE → JValue → List (String × JValue) → Except String JValue
  | .mk _ _ _ r => r

/-- Whether an output type is `NonNull`-wrapped. -/
def OutTypeE.isNonNullOut : OutTypeE → Bool
  | .nonNull _ => true
  | _ => false

/-- Field lookup by name in an object type's field list. -/
def lookupField : FieldListE → String → Option FieldDefE
  | .nil, _ => none
  | .cons fd rest, n => if fd.name = n then some fd else lookupField rest n

mutual

/-- Nesting depth of an output type, used to size the executor's fuel. -/
def OutTypeE.depth : OutTypeE → Nat
  | .scalarString => 1
  | .nonNull t => t.depth + 1
  | .object _ fields => fields.depthFL + 1

/-- Maximal depth over a field list. -/
def FieldListE.depthFL : FieldListE → Nat
  | .nil => 0
  | .cons fd rest => max fd.depthFD rest.depthFL

/-- Depth of a field definition's output type. -/
def FieldDefE.depthFD : FieldDefE → Nat
  | .mk _ _ t _ => t.depth

end

mutual

/-- A requested field of the query: name, supplied argument values, and the
sub-selection set (empty for leaf fields).  Response keys are field names
(the modelled fragment has no aliases). -/
inductive QField where
  | mk (name : String) (args : List (String × JValue)) (subsels : QSels)

/-- A selection set of the query, in document order. -/
inductive QSels where
  | nil
  | cons (q : QField) (rest : QSels)

end

/-- Name of a requested field. -/
def QField.name : QField → String
  | .mk n _ _ => n

/-- Supplied arguments of a requested field. -/
def QField.args : QField → List (String × JValue)
  | .mk _ a _ => a

/-- Sub-selections of a requested field. -/
def QField.subsels : QField → QSels
  | .mk _ _ s => s

mutual

/-- Number of requested fields in a field's subtree. -/
def QField.sizeQ : QField → Nat
  | .mk _ _ subs => subs.sizeQS + 1

/-- Number of requested fields in a selection set. -/
def QSels.sizeQS : QSels → Nat
  | .nil => 0
  | .cons q rest => q.sizeQ + rest.sizeQS

end

/-- Lookup of a supplied argument value by name. -/
def lookupArg (supplied : List (String × JValue)) (n : String) : Option JValue :=
  (supplied.find? (fun p => p.1 = n)).map Prod.snd

/-- Argument coercion against the declared argument definitions, modelled
from the spec: a supplied value is used as given, an omitted argument takes
its default literal, and an omitted argument of required (`NonNull`,
defaultless) type is a coercion failure. -/
def getArgumentValues : List ArgDefE → List (String × JValue) →
    Except String (List (String × JValue))
  | [], _ => .ok []
  | ad :: rest, supplied =>
    match lookupArg supplied ad.name with
    | some v => (getArgumentValues rest supplied).map (fun l => (ad.name, v) :: l)
    | none =>
      match ad.defaultValue with
      | some d => (getArgumentValues rest supplied).map (fun l => (ad.name, d) :: l)
      | none =>
        if ad.type.isRequired then
          .error ("Argument " ++ ad.name ++ " of required type was not provided.")
        else
          getArgumentValues rest supplied

mutual

/-- Pre-execution coercion pass over the requested selection tree, modelled
from the spec (§7, §8): it collects every argument-coercion failure of the
request; a non-empty collection rejects the request before execution
starts. -/
def coerceCheck (fuel : Nat) (t : OutTypeE) (sels : QSels) : List String :=
  match fuel with
  | 0 => []
  | fuel + 1 =>
    match t with
    | .nonNull t' => coerceCheck fuel t' sels
    | .scalarString => []
    | .object _ fields => coerceCheckSels fuel fields sels

/-- Coercion pass over one selection set against its parent object type. -/
def coerceCheckSels (fuel : Nat) (fields : FieldListE) (sels : QSels) : List String :=
  match fuel with
  | 0 => []
  | fuel + 1 =>
    match sels with
    | .nil => []
    | .cons q rest =>
      (match lookupField fields q.name with
       | none => []
       | some fd =>
         (match getArgumentValues fd.args q.args with
          | .error e => [e]
          | .ok _ => []) ++ coerceCheck fuel fd.type q.subsels)
      ++ coerceCheckSels fuel fields rest

end

mutual

/-- Resolution of one field: coerce arguments, invoke the resolver and catch
its failure at the field boundary (spec §4.7 step 7), then complete the
value against the field's output type.  `none` as first component means the
field position failed and the failure is still bubbling. -/
def executeField (fuel : Nat) (source : JValue) (fd : FieldDefE) (q : QField) :
    Option JValue × List String :=
  match fuel with
  | 0 => (none, [])
  | fuel + 1 =>
    match getArgumentValues fd.args q.args with
    | .error e => (none, [e])
    | .ok args =>
      match fd.resolve source args with
      | .error e => (none, [e])
      | .ok v => completeValue fuel fd.type q.subsels v

/-- Value completion, recursive by output type (spec §4.7 step 5): a `null`
completed against a `NonNull`-wrapped type records one error and starts
bubbling; a bubbling failure passes through `NonNull` wrappers unchanged;
object types execute their sub-selections. -/
def completeValue (fuel : Nat) (t : OutTypeE) (sels : QSels) (v : JValue) :
    Option JValue × List String :=
  match fuel with
  | 0 => (none, [])
  | fuel + 1 =>
    match t with
    | .scalarString => (some v, [])
    | .nonNull t' =>
      match completeValue fuel t' sels v with
      | (some .null, errs) =>
        (none, errs ++ ["Cannot return null for non-nullable field."])
      | r => r
    | .object _ fields =>
      match v with
      | .null => (some .null, [])
      | _ =>
        match executeFields fuel fields sels v with
        | (some slots, errs) => (some (.obj slots), errs)
        | (none, errs) => (none, errs)

/-- Execution of a (non-root) selection set: every field is attempted
regardless of sibling failures; a failed slot of nullable type is absorbed
as `null` (the nearest nullable ancestor position), while a failed slot of
`NonNull` type makes the whole enclosing object bubble. -/
def executeFields (fuel : Nat) (fields : FieldListE) (sels : QSels)
    (source : JValue) : Option JFields × List String :=
  match fuel with
  | 0 => (none, [])
  | fuel + 1 =>
    match sels with
    | .nil => (some .nil, [])
    | .cons q rest =>
      let slot :=
        match lookupField fields q.name with
        | none => (some JValue.null, ([] : List String), false)
        | some fd =>
          let r := executeField fuel source fd q
          (r.1, r.2, fd.type.isNonNullOut)
      let restR := executeFields fuel fields rest source
      match slot with
      | (some v, errs, _) =>
        match restR with
        | (some l, restErrs) => (some (.cons q.name v l), errs ++ restErrs)
        | (none, restErrs) => (none, errs ++ restErrs)
      | (none, errs, isNN) =>
        if isNN then (none, errs ++ restR.2)
        else
          match restR with
          | (some l, restErrs) => (some (.cons q.name JValue.null l), errs ++ restErrs)
          | (none, restErrs) => (none, errs ++ restErrs)

/-- Execution of the root selection set: root-level slots absorb any failure
still bubbling (the spec's scenario has a root-level `NonNull` failure
bubble only to itself, not to the whole response). -/
def executeRootFields (fuel : Nat) (fields : FieldListE) (sels : QSels)
    (source : JValue) : JFields × List String :=
  match fuel with
  | 0 => (.nil, [])
  | fuel + 1 =>
    match sels with
    | .nil => (.nil, [])
    | .cons q rest =>
      let r :=
        match lookupField fields q.name with
        | none => (some JValue.null, ([] : List String))
        | some fd => executeField fuel source fd q
      let restR := executeRootFields fuel fields rest source
      (.cons q.name (r.1.getD .null) restR.1, r.2 ++ restR.2)

end

/-- An operation of the request: optional name and its root selection set
(query-type operations suffice for the claims). -/
structure OperationM where
  name : Option String
  sels : QSels

/-- Operation selection, modelled from the spec (§4.7 step 1): error if a
name is given but absent from the document, or if no name is given and the
document does not hold exactly one operation. -/
def selectOperation (ops : List OperationM) (opName : Option String) :
    Except String OperationM :=
  match opName with
  | some n =>
    match ops.find? (fun o => o.name = some n) with
    | some o => .ok o
    | none => .error ("Unknown operation named " ++ n ++ ".")
  | none =>
    match ops with
    | [o] => .ok o
    | [] => .error "Must provide an operation."
    | _ => .error "Must provide operation name if query contains multiple operations."

/-- Response envelope, mirroring `interface GraphQLResult \x7b data?; errors?
\x7d`: both fields optional, and nothing else. -/
structure GraphQLResultM where
  data : Option JValue
  errors : Option (List String)
deriving DecidableEq, Repr

/-- Fuel sufficient for one run: type nesting depth plus requested field
count. -/
def runFuel (schema : OutTypeE) (sels : QSels) : Nat :=
  schema.depth + sels.sizeQS + 1

/-- Whether the request is rejected before execution starts: unresolvable
operation name, or a coercion failure (spec §7). -/
def requestRejected (schema : OutTypeE) (ops : List OperationM)
    (opName : Option String) : Bool :=
  match selectOperation ops opName with
  | .error _ => true
  | .ok op => !(coerceCheck (runFuel schema op.sels) schema op.sels).isEmpty

/-- Execution of the root selection set against the schema's query root
type. -/
def executeRootData (fuel : Nat) (schema : OutTypeE) (sels : QSels)
    (rootValue : JValue) : JFields × List String :=
  match schema with
  | .object _ fields => executeRootFields fuel fields sels rootValue
  | _ => (.nil, [])

/-- The full request pipeline (`graphql` / `execute`), modelled from the
spec: operation selection, pre-execution coercion, then execution; on
rejection `data` is omitted and `errors` holds the rejection errors, while
once execution starts `data` is always present and `errors` is present
exactly when field errors were collected. -/
def graphqlRun (schema : OutTypeE) (ops : List OperationM) (rootValue : JValue)
    (opName : Option String) : GraphQLResultM :=
  match selectOperation ops opName with
  | .error e => { data := none, errors := some [e] }
  | .ok op =>
    if (coerceCheck (runFuel schema op.sels) schema op.sels).isEmpty then
      { data :=
          some (.obj (executeRootData (runFuel schema op.sels) schema op.sels rootValue).1)
      , errors :=
          if (executeRootData (runFuel schema op.sels) schema op.sels rootValue).2.isEmpty
          then none
          else some (executeRootData (runFuel schema op.sels) schema op.sels rootValue).2 }
    else
      { data := none
      , errors := some (coerceCheck (runFuel schema op.sels) schema op.sels) }

/-! ## Concrete scenarios of the spec (§8) -/

/-- Schema `Query \x7b echo(msg: String!): String \x7d` whose resolver
returns its argument. -/
def echoSchema : OutTypeE :=
  .object "Query"
    (.cons
      (.mk "echo" [⟨"msg", .nonNull .string, none⟩] .scalarString
        (fun _ args => .ok ((lookupArg args "msg").getD .null)))
      .nil)

/-- Query `\x7b echo(msg: "hi") \x7d`. -/
def echoOkSels : QSels := .cons (.mk "echo" [("msg", .str "hi")] .nil) .nil

/-- Query `\x7b echo \x7d` — the required argument omitted, no default. -/
def echoBadSels : QSels := .cons (.mk "echo" [] .nil) .nil

/-- Schema `Query \x7b a: String, b: String! \x7d` where both resolvers
throw. -/
def schemaAB : OutTypeE :=
  .object "Query"
    (.cons (.mk "a" [] .scalarString (fun _ _ => .error "a failed"))
      (.cons (.mk "b" [] (.nonNull .scalarString) (fun _ _ => .error "b failed"))
        .nil))

/-- Query `\x7b a b \x7d`. -/
def selsAB : QSels := .cons (.mk "a" [] .nil) (.cons (.mk "b" [] .nil) .nil)

/-- Object type `Inner \x7b b: String! \x7d` where `b`'s resolver throws. -/
def innerType : OutTypeE :=
  .object "Inner"
    (.cons (.mk "b" [] (.nonNull .scalarString) (fun _ _ => .error "b failed")) .nil)

/-- Schema `Query \x7b c: Inner! \x7d` whose `c` resolver returns an object
value. -/
def schemaC : OutTypeE :=
  .object "Query"
    (.cons (.mk "c" [] (.nonNull innerType) (fun _ _ => .ok (.obj .nil))) .nil)

/-- Query `\x7b c \x7b b \x7d \x7d`. -/
def selsC : QSels := .cons (.mk "c" [] (.cons (.mk "b" [] .nil) .nil)) .nil

/-! ## Document AST (`language/ast.js`)

The parser / printer pair of `language/parser.js` / `language/printer.js` is
declared but not implemented in this repository; it is modelled from the
spec (§4.1, §4.2, §6, §8) on a representative fragment of the query
grammar: documents of keyworded operations (query / mutation /
subscription, optionally named) and fragment definitions; selection sets of
fields (optional alias, optional arguments, optional nested selection set)
and named fragment spreads; argument values that are variables, integers or
name literals.  Locations are not attached (the `noLocation` mode), so
structural equivalence of documents is plain equality. -/

/-- Argument values of the modelled grammar fragment.  Integer literals keep
their digit string, as in the declared `IntValue` interface. -/
inductive Value where
  | var (name : String)
  | intVal (digits : String)
  | nameVal (name : String)
deriving DecidableEq, Repr

/-- A field argument: name and value. -/
structure Argument where
  name : String
  value : Value
deriving DecidableEq, Repr

mutual

/-- A selection: a field or a named fragment spread. -/
inductive Selection where
  | field (f : Field)
  | fragmentSpread (name : String)
deriving DecidableEq, Repr

/-- A field selection: optional alias, name, arguments, and sub-selection
set (empty meaning absent, as the grammar has no empty braced sets). -/
inductive Field where
  | mk (aliasName : Option String) (name : String) (args : List Argument)
      (sels : SelectionSet)
deriving DecidableEq, Repr

/-- A selection set, in document order. -/
inductive SelectionSet where
  | nil
  | cons (s : Selection) (rest : SelectionSet)
deriving DecidableEq, Repr

end

/-- Operation kinds of `OperationDefinition.operation`. -/
inductive OpType where
  | query
  | mutation
  | subscription
deriving DecidableEq, Repr

/-- An operation definition: kind, optional name, selection set. -/
structure OperationDefinition where
  opType : OpType
  name : Option String
  sels : SelectionSet
deriving DecidableEq, Repr

/-- A fragment definition: name, type condition, selection set. -/
structure FragmentDefinition where
  name : String
  typeCondition : String
  sels : SelectionSet
deriving DecidableEq, Repr

/-- A document definition. -/
inductive Definition where
  | op (o : OperationDefinition)
  | frag (f : FragmentDefinition)
deriving DecidableEq, Repr

/-- A document: its definitions in order. -/
abbrev Document := List Definition

/-! ### Well-formedness (lexable names, non-empty braced sets) -/

/-- First character of a GraphQL name. -/
def isNameStart (c : Char) : Bool := c.isAlpha || c = '_'

/-- Subsequent characters of a GraphQL name. -/
def isNameChar (c : Char) : Bool := c.isAlphanum || c = '_'

/-- Valid GraphQL name: non-empty, name-start head, name characters after. -/
def validName (s : String) : Bool :=
  match s.data with
  | [] => false
  | c :: cs => isNameStart c && cs.all isNameChar

/-- Valid integer literal body: non-empty digit string. -/
def validDigits (s : String) : Bool :=
  match s.data with
  | [] => false
  | l => l.all Char.isDigit

/-- Well-formedness of a value literal. -/
def Value.wfV : Value → Bool
  | .var n => validName n
  | .intVal s => validDigits s
  | .nameVal n => validName n

/-- Well-formedness of an argument. -/
def Argument.wfA (a : Argument) : Bool := validName a.name && a.value.wfV

mutual

/-- Well-formedness of a selection. -/
def Selection.wfSel : Selection → Bool
  | .field f => f.wfF
  | .fragmentSpread n => validName n

/-- Well-formedness of a field. -/
def Field.wfF : Field → Bool
  | .mk al n args sels =>
    (match al with
     | none => true
     | some a => validName a)
    && validName n && args.all Argument.wfA && sels.wfS

/-- Well-formedness of a selection set. -/
def SelectionSet.wfS : SelectionSet → Bool
  | .nil => true
  | .cons s rest => s.wfSel && rest.wfS

end

/-- Whether a selection set is non-empty. -/
def SelectionSet.isCons : SelectionSet → Bool
  | .nil => false
  | .cons _ _ => true

/-- Punctuator tokens of the modelled grammar fragment. -/
inductive Punct where
  | lbrace
  | rbrace
  | lparen
  | rparen
  | colon
  | dollar
  | spread
deriving DecidableEq, Repr

/-- Tokens: names, integer literals, punctuators. -/
inductive Token where
  | name (s : String)
  | intTok (s : String)
  | punct (p : Punct)
deriving DecidableEq, Repr

/-- Lexability of a token. -/
def Token.wfT : Token → Bool
  | .name s => validName s
  | .intTok s => validDigits s
  | .punct _ => true

/-- Printed tokens of a value. -/
def printValue : Value → List Token
  | .var n => [.punct .dollar, .name n]
  | .intVal s => [.intTok s]
  | .nameVal s => [.name s]

/-- Printed tokens of one argument. -/
def printArg (a : Argument) : List Token :=
  Token.name a.name :: Token.punct .colon :: printValue a.value

/-- Printed tokens of an argument list body. -/
def printArgItemsT : List Argument → List Token
  | [] => []
  | a :: rest => printArg a ++ printArgItemsT rest

/-- Printed tokens of a parenthesised argument list (omitted when empty). -/
def printArgsT (args : List Argument) : List Token :=
  match args with
  | [] => []
  | _ => Token.punct .lparen :: printArgItemsT args ++ [Token.punct .rparen]

mutual

/-- Printed tokens of a selection. -/
def printSelection : Selection → List Token
  | .field f => printField f
  | .fragmentSpread n => [.punct .spread, .name n]

/-- Printed tokens of a field. -/
def printField : Field → List Token
  | .mk al n args sels =>
    (match al with
     | none => []
     | some a => [Token.name a, Token.punct .colon])
    ++ Token.name n :: printFieldTail args sels

/-- Printed tokens of a field after its name: arguments, then the braced
selection set when non-empty. -/
def printFieldTail (args : List Argument) (sels : SelectionSet) : List Token :=
  printArgsT args ++
    (match sels with
     | .nil => []
     | .cons s rest =>
       Token.punct .lbrace ::
         (printSelection s ++ printSels rest) ++ [Token.punct .rbrace])

/-- Printed tokens of a selection set body. -/
def printSels : SelectionSet → List Token
  | .nil => []
  | .cons s rest => printSelection s ++ printSels rest

end

/-- Printed tokens of an optional braced selection set (nothing when
empty), the brace part of `printFieldTail`. -/
def printSelSet : SelectionSet → List Token
  | .nil => []
  | .cons s r =>
    Token.punct .lbrace :: (printSelection s ++ printSels r) ++
      [Token.punct .rbrace]

/-- Parse of one value literal. -/
def parseValue : List Token → Option (Value × List Token)
  | .punct .dollar :: .name n :: ts => some (.var n, ts)
  | .intTok s :: ts => some (.intVal s, ts)
  | .name s :: ts => some (.nameVal s, ts)
  | _ => none

/-- Parse of the body of a parenthesised argument list: one or more
`name: value` items, stopping in front of the closing parenthesis. -/
def parseArgItems : Nat → List Token → Option (List Argument × List Token)
  | 0, _ => none
  | fuel + 1, .name n :: .punct .colon :: ts =>
    match parseValue ts with
    | none => none
    | some (v, ts1) =>
      match ts1 with
      | .punct .rparen :: _ => some ([⟨n, v⟩], ts1)
      | _ =>
        match parseArgItems fuel ts1 with
        | none => none
        | some (rest, ts2) => some (⟨n, v⟩ :: rest, ts2)
  | _ + 1, _ => none

mutual

/-- Parse of one selection: a fragment spread after `...`, otherwise a
field. -/
def parseSelection : Nat → List Token → Option (Selection × List Token)
  | 0, _ => none
  | _ + 1, .punct .spread :: .name n :: ts => some (.fragmentSpread n, ts)
  | fuel + 1, ts =>
    match parseField fuel ts with
    | none => none
    | some (f, ts1) => some (.field f, ts1)

/-- Parse of one field: `alias: name` or bare `name`, then arguments and
sub-selections. -/
def parseField : Nat → List Token → Option (Field × List Token)
  | 0, _ => none
  | fuel + 1, .name n1 :: .punct .colon :: .name n2 :: ts =>
    parseFieldRest fuel (some n1) n2 ts
  | fuel + 1, .name n1 :: ts => parseFieldRest fuel none n1 ts
  | _ + 1, _ => none

/-- Parse of a field after its (alias and) name: optional parenthesised
arguments, then the optional braced selection set. -/
def parseFieldRest : Nat → Option String → String → List Token →
    Option (Field × List Token)
  | 0, _, _, _ => none
  | fuel + 1, al, n, .punct .lparen :: ts1 =>
    match parseArgItems fuel ts1 with
    | none => none
    | some (args, ts2) =>
      match ts2 with
      | .punct .rparen :: ts3 => parseFieldSels fuel al n args ts3
      | _ => none
  | fuel + 1, al, n, ts => parseFieldSels fuel al n [] ts

/-- Parse of a field's optional braced selection set, closing the field. -/
def parseFieldSels : Nat → Option String → String → List Argument →
    List Token → Option (Field × List Token)
  | 0, _, _, _, _ => none
  | fuel + 1, al, n, args, .punct .lbrace :: ts5 =>
    match parseSels fuel ts5 with
    | none => none
    | some (sels, ts6) =>
      match ts6 with
      | .punct .rbrace :: ts7 => some (.mk al n args sels, ts7)
      | _ => none
  | _ + 1, al, n, args, ts => some (.mk al n args .nil, ts)

/-- Parse of a non-empty selection-set body, stopping in front of the
closing brace. -/
def parseSels : Nat → List Token → Option (SelectionSet × List Token)
  | 0, _ => none
  | fuel + 1, ts =>
    match parseSelection fuel ts with
    | none => none
    | some (s, ts1) =>
      match ts1 with
      | .punct .rbrace :: _ => some (.cons s .nil, ts1)
      | _ =>
        match parseSels fuel ts1 with
        | none => none
        | some (rest, ts2) => some (.cons s rest, ts2)

end

/-- Whether a token stream starts like a selection (a name or a spread). -/
def selStart : List Token → Bool
  | Token.name _ :: _ => true
  | Token.punct .spread :: _ => true
  | _ => false

/-- Whether a token stream may legally follow a completed field: it must
not begin with a colon, an opening parenthesis or an opening brace (those
would belong to the field). -/
def followOk : List Token → Bool
  | Token.punct .colon :: _ => false
  | Token.punct .lparen :: _ => false
  | Token.punct .lbrace :: _ => false
  | _ => true

mutual

/-- Fragment-spread names appearing in a selection. -/
def Selection.spreadNames : Selection → List String
  | .field f => f.spreadNamesF
  | .fragmentSpread n => [n]

/-- Fragment-spread names appearing under a field. -/
def Field.spreadNamesF : Field → List String
  | .mk _ _ _ sels => sels.spreadNamesS

/-- Fragment-spread names appearing in a selection set, the
`ValidationContext.getFragmentSpreads` document query. -/
def SelectionSet.spreadNamesS : SelectionSet → List String
  | .nil => []
  | .cons s rest => s.spreadNames ++ rest.spreadNamesS

end

/-- Fragment definitions of a document, in order. -/
def fragmentDefs (d : Document) : List FragmentDefinition :=
  d.foldr
    (fun df acc =>
      match df with
      | .frag f => f :: acc
      | .op _ => acc)
    []

/-- Fragment lookup by name, the `ValidationContext.getFragment` document
query. -/
def getFragment (d : Document) (n : String) : Option FragmentDefinition :=
  (fragmentDefs d).find? (fun f => f.name = n)

/-- All fragment-spread names of a document. -/
def docSpreadNames (d : Document) : List String :=
  d.foldr
    (fun df acc =>
      (match df with
       | .op o => o.sels.spreadNamesS
       | .frag f => f.sels.spreadNamesS)
      ++ acc)
    []

/-- The spec's example rule: referencing an undefined fragment is an
error (KnownFragmentNames). -/
def knownFragmentNamesRule (d : Document) : List String :=
  (docSpreadNames d).filterMap
    (fun n =>
      if (getFragment d n).isSome then none
      else some ("Unknown fragment " ++ n ++ "."))

/-- A second specified rule: a fragment defined but never spread is an
error (NoUnusedFragments). -/
def noUnusedFragmentsRule (d : Document) : List String :=
  (fragmentDefs d).filterMap
    (fun f =>
      if (docSpreadNames d).contains f.name then none
      else some ("Fragment " ++ f.name ++ " is never used."))

/-- The configured rule set (`specifiedRules`), modelled by the two rules
above. -/
def specifiedRulesM : List (Document → List String) :=
  [knownFragmentNamesRule, noUnusedFragmentsRule]

/-- The validator `validate`: every rule of the configured set reports its
errors; the reports are concatenated. -/
def validate (_schema : SchemaM) (d : Document)
    (rules : List (Document → List String)) : List String :=
  (rules.map (fun r => r d)).flatten

/-- A valid document: one field, no fragment business. -/
def goodDoc : Document :=
  [.op ⟨.query, none, .cons (.field (.mk none "x" [] .nil)) .nil⟩]

/-- A document violating both modelled rules at once: it spreads the
undefined fragment `F` and defines the unused fragment `G`. -/
def badDoc : Document :=
  [ .op ⟨.query, none, .cons (.fragmentSpread "F") .nil⟩
  , .frag ⟨"G", "T", .cons (.field (.mk none "x" [] .nil)) .nil⟩ ]

/-! ## Theorems -/

/-- C3: NonNull never wraps NonNull: applying the declared constructor
`new GraphQLNonNull(·)` to a `GraphQLNonNull` value is rejected for every
type, and the `ofType` of every `NonNull` value is a nullable
(non-`NonNull`) type. -/
theorem nonNull_never_wraps_nonNull :
    (∀ t : GraphQLNullableType,
      GraphQLNonNull.construct (GraphQLType.nonNull t) = none) ∧
    (∀ v w : GraphQLType,
      v.isNonNull = true → v.wrappedType = some w → w.isNonNull = false) := by
  constructor
  · intro t; rfl
  · intro v w hv hw
    cases v with
    | nullable t => simp [GraphQLType.isNonNull] at hv
    | nonNull t =>
      simp only [GraphQLType.wrappedType, Option.some.injEq] at hw
      subst hw
      rfl

/-- Witness for C3 at the concrete type `String!`. -/
theorem nonNull_never_wraps_nonNull_witness :
    (GraphQLType.nonNull (.named (.scalar "String"))).isNonNull = true ∧
    (GraphQLType.nonNull (.named (.scalar "String"))).wrappedType =
      some (GraphQLType.nullable (.named (.scalar "String"))) ∧
    (GraphQLType.nullable (.named (.scalar "String"))).isNonNull = false :=
  ⟨rfl, rfl,
    nonNull_never_wraps_nonNull.2
      (GraphQLType.nonNull (.named (.scalar "String")))
      (GraphQLType.nullable (.named (.scalar "String"))) rfl rfl⟩

/-- C6: unwrapping to the named type is idempotent, and for every stack of
`List` / `NonNull` wrappers legally constructible around a named base type,
`getNamedType` returns that base type regardless of the wrappers. -/
theorem getNamedType_idempotent_wrapper_independent :
    (∀ t : GraphQLType,
      getNamedType (GraphQLNamedType.toType (getNamedType t)) = getNamedType t) ∧
    (∀ (ws : List Wrapper) (n : GraphQLNamedType) (t : GraphQLType),
      applyWrappers ws n.toType = some t → getNamedType t = n) := by
  have base : ∀ m : GraphQLNamedType, getNamedType m.toType = m := by
    intro m
    simp [GraphQLNamedType.toType, getNamedType, getNamedTypeNullable]
  refine ⟨fun t => base _, ?_⟩
  intro ws
  induction ws with
  | nil =>
    intro n t h
    simp only [applyWrappers] at h
    cases h
    exact base n
  | cons w ws ih =>
    intro n t h
    simp only [applyWrappers] at h
    cases hu : applyWrappers ws n.toType with
    | none => rw [hu] at h; cases h
    | some u =>
      rw [hu] at h
      have hn := ih n u hu
      cases w with
      | listW =>
        simp only [applyWrapper, Option.some.injEq] at h
        subst h
        simpa [getNamedType, getNamedTypeNullable] using hn
      | nonNullW =>
        cases u with
        | nullable v =>
          simp only [applyWrapper, GraphQLNonNull.construct, Option.some.injEq] at h
          subst h
          simp only [getNamedType] at hn ⊢
          exact hn
        | nonNull v =>
          simp [applyWrapper, GraphQLNonNull.construct] at h

/-- Witness for C6 at the concrete wrapper stack `[String!]` around the
named type `String`. -/
theorem getNamedType_idempotent_wrapper_independent_witness :
    applyWrappers [Wrapper.listW, Wrapper.nonNullW]
        (GraphQLNamedType.scalar "String").toType =
      some (GraphQLType.nullable
        (.list (GraphQLType.nonNull (.named (.scalar "String"))))) ∧
    getNamedType
        (GraphQLType.nullable
          (.list (GraphQLType.nonNull (.named (.scalar "String"))))) =
      .scalar "String" :=
  ⟨rfl,
    getNamedType_idempotent_wrapper_independent.2
      [Wrapper.listW, Wrapper.nonNullW] (.scalar "String")
      (GraphQLType.nullable
        (.list (GraphQLType.nonNull (.named (.scalar "String"))))) rfl⟩

/-- C7: the older possible-types APIs (`GraphQLUnionType.getPossibleTypes` /
`isPossibleType`, `GraphQLInterfaceType.getPossibleTypes`) and the newer
ones (`GraphQLUnionType.getTypes`, `GraphQLSchema.getPossibleTypes`)
compute the same operation: the declared member list for unions, the
conforming object types for interfaces. -/
theorem possibleTypes_apis_agree :
    (∀ u : UnionTypeM, u.getPossibleTypes = u.getTypes) ∧
    (∀ (s : SchemaM) (u : UnionTypeM),
      u.getPossibleTypes = s.getPossibleTypes (.union u)) ∧
    (∀ (s : SchemaM) (i : InterfaceTypeM),
      i.getPossibleTypes s = s.getPossibleTypes (.iface i)) ∧
    (∀ (u : UnionTypeM) (t : ObjectTypeM),
      u.isPossibleType t = u.getTypes.contains t) :=
  ⟨fun _ => rfl, fun _ _ => rfl, fun _ _ => rfl, fun _ _ => rfl⟩

/-- C8 counterexample: the claim that every declared `ExecutionContext`
carries a context value is false — the top-level declaration (the first of
the two in the source) has no `contextValue` field. -/
theorem executionContext_contextValue_counterexample :
    executionContextDecls.all (fun d => d.contains "contextValue") = false := by
  decide

/-- C8 amended: both `ExecutionContext` declarations carry the Schema, the
fragment map, the root value, the operation, the variable values and the
error list; only the module-scoped declaration also carries the context
value. -/
theorem executionContext_fields_amended :
    executionContextFields =
      ["schema", "fragments", "rootValue", "operation", "variableValues",
       "errors"] ∧
    executionContextFields.all
      (fun f => executionContextModuleFields.contains f) = true ∧
    executionContextModuleFields.contains "contextValue" = true ∧
    executionContextFields.contains "contextValue" = false := by
  refine ⟨rfl, by decide, by decide, by decide⟩

/-- C9: evaluation at the failing constant — `Kind.ENUM_TYPE_DEFINITION` is
declared as `"UnionTypeDefinition"`, colliding with
`Kind.UNION_TYPE_DEFINITION` and contradicting the literal kind
`"EnumTypeDefinition"` of the `EnumTypeDefinition` interface; every other
tabulated constant matches its interface, so the constant set is not
pairwise distinct exactly because of this entry. -/
theorem kind_enum_type_definition_mismatch :
    Kind.ENUM_TYPE_DEFINITION = "UnionTypeDefinition" ∧
    Kind.ENUM_TYPE_DEFINITION = Kind.UNION_TYPE_DEFINITION ∧
    interfaceKindOf "EnumTypeDefinition" = some "EnumTypeDefinition" ∧
    Kind.ENUM_TYPE_DEFINITION ≠ "EnumTypeDefinition" ∧
    kindConstantTable.filter (fun p => !(interfaceKindOf p.2 == some p.1)) =
      [("UnionTypeDefinition", "EnumTypeDefinition")] ∧
    ¬ kindConstantValues.Nodup := by
  refine ⟨rfl, rfl, rfl, by decide, by decide, by decide⟩

/-- C10: the declared signature of `find` promises a result of the element
type `T` unconditionally: its return type is exactly the type parameter,
mentions no `undefined` and no union, for the declared parameters
`(list: Array<T>, predicate: (item: T) => boolean)`. -/
theorem find_declared_return_total :
    findDecl.ret = TSType.tvar "T" ∧
    findDecl.ret.mentionsUndef = false ∧
    findDecl.typeParams = ["T"] ∧
    findDecl.params.map Prod.snd =
      [.array (.tvar "T"), .fn1 (.tvar "T") .boolean] :=
  ⟨rfl, rfl, rfl, rfl⟩

/-- C1: the result envelope has only the two fields `data` and `errors`;
`data` is omitted exactly when the request is rejected before execution
starts (unresolvable operation name or coercion failure), and in that case
`errors` is present and non-empty; once execution starts `data` is always
present. -/
theorem result_envelope :
    graphQLResultFields.map Prod.fst = ["data", "errors"] ∧
    executionResultFields.map Prod.fst = ["data", "errors"] ∧
    (∀ (schema : OutTypeE) (ops : List OperationM) (rootValue : JValue)
        (opName : Option String),
      ((graphqlRun schema ops rootValue opName).data = none ↔
        requestRejected schema ops opName = true) ∧
      (requestRejected schema ops opName = true →
        ∃ l, (graphqlRun schema ops rootValue opName).errors = some l ∧
          l ≠ [])) := by
  refine ⟨rfl, rfl, ?_⟩
  intro schema ops rootValue opName
  unfold graphqlRun requestRejected
  cases h : selectOperation ops opName with
  | error e =>
    exact ⟨by simp, fun _ => ⟨[e], rfl, by simp⟩⟩
  | ok op =>
    cases hc : (coerceCheck (runFuel schema op.sels) schema op.sels).isEmpty with
    | true => simp [hc]
    | false =>
      refine ⟨by simp [hc], fun _ => ?_⟩
      refine ⟨coerceCheck (runFuel schema op.sels) schema op.sels, by simp [hc], ?_⟩
      intro hnil
      rw [hnil] at hc
      simp at hc

/-- Witness for C1: the spec's echo scenarios — `\x7b echo \x7d` with the
required argument omitted is rejected with no `data` and non-empty
`errors`, while `\x7b echo(msg: "hi") \x7d` executes to
`data = \x7b echo: "hi" \x7d`. -/
theorem result_envelope_witness :
    requestRejected echoSchema [⟨none, echoBadSels⟩] none = true ∧
    (graphqlRun echoSchema [⟨none, echoBadSels⟩] .null none).data = none ∧
    (∃ l, (graphqlRun echoSchema [⟨none, echoBadSels⟩] .null none).errors =
      some l ∧ l ≠ []) ∧
    graphqlRun echoSchema [⟨none, echoOkSels⟩] .null none =
      ⟨some (.obj (.cons "echo" (.str "hi") .nil)), none⟩ :=
  ⟨by decide,
   ((result_envelope.2.2 echoSchema [⟨none, echoBadSels⟩] JValue.null none).1).mpr
     (by decide),
   (result_envelope.2.2 echoSchema [⟨none, echoBadSels⟩] JValue.null none).2
     (by decide),
   by decide⟩

/-- C2: a `null` completed against a `NonNull` type records one error and
bubbles to the nearest nullable ancestor: with `Query \x7b a: String, b:
String! \x7d` and both resolvers throwing, `\x7b a b \x7d` gives
`data = \x7b a: null, b: null \x7d` with exactly two errors (the root-level
`NonNull` failure bubbles only to its own slot); with `Query \x7b c:
Inner! \x7d`, `Inner \x7b b: String! \x7d` and `b` throwing, the whole `c`
subtree becomes `null` with exactly one error. -/
theorem nonNull_bubbling_scenarios :
    completeValue 2 (.nonNull .scalarString) .nil JValue.null =
      (none, ["Cannot return null for non-nullable field."]) ∧
    graphqlRun schemaAB [⟨none, selsAB⟩] .null none =
      ⟨some (.obj (.cons "a" .null (.cons "b" .null .nil))),
       some ["a failed", "b failed"]⟩ ∧
    graphqlRun schemaC [⟨none, selsC⟩] .null none =
      ⟨some (.obj (.cons "c" .null .nil)), some ["b failed"]⟩ := by
  refine ⟨by decide, by decide, by decide⟩

/-- C5: `validate` returns the empty list on every document every configured
rule accepts; every rule's errors appear in the output whatever the other
rules report (no suppression, every rule runs on every call); on the
concrete document violating both modelled rules, both rules' errors are
reported. -/
theorem validate_completeness :
    (∀ (s : SchemaM) (d : Document),
      (∀ r ∈ specifiedRulesM, r d = []) → validate s d specifiedRulesM = []) ∧
    (∀ (s : SchemaM) (d : Document) (rules : List (Document → List String))
        (r : Document → List String),
      r ∈ rules → (r d).Sublist (validate s d rules)) ∧
    validate ⟨[]⟩ badDoc specifiedRulesM =
      ["Unknown fragment F.", "Fragment G is never used."] ∧
    validate ⟨[]⟩ goodDoc specifiedRulesM = [] := by
  refine ⟨?_, ?_, by decide, by decide⟩
  · intro s d h
    have h1 := h knownFragmentNamesRule (by simp [specifiedRulesM])
    have h2 := h noUnusedFragmentsRule (by simp [specifiedRulesM])
    simp [validate, specifiedRulesM, h1, h2]
  · intro s d rules r
    induction rules with
    | nil => intro hr; cases hr
    | cons r0 rest ih =>
      intro hr
      simp only [validate, List.map_cons, List.flatten_cons]
      rcases List.mem_cons.mp hr with h | h
      · subst h
        exact List.sublist_append_left _ _
      · exact (ih h).trans (List.sublist_append_right _ _)

/-- Witness for C5: the first part applied to the concretely valid document,
the second to the undefined-fragment rule on the concretely invalid one. -/
theorem validate_completeness_witness :
    validate ⟨[]⟩ goodDoc specifiedRulesM = [] ∧
    (knownFragmentNamesRule badDoc).Sublist
      (validate ⟨[]⟩ badDoc specifiedRulesM) :=
  ⟨validate_completeness.1 ⟨[]⟩ goodDoc (by decide),
   validate_completeness.2.1 ⟨[]⟩ badDoc specifiedRulesM knownFragmentNamesRule
     (by simp [specifiedRulesM])⟩

/-! ### Round-trip machinery: lexer inversion -/

/-- Printed values are non-empty. -/
theorem printValue_length (v : Value) : 1 ≤ (printValue v).length := by
  cases v <;> simp [printValue]

/-- Printed fields start with a name token. -/
theorem printField_head (f : Field) :
    ∃ nm tl, printField f = Token.name nm :: tl := by
  cases f with
  | mk al n args sels =>
    cases al with
    | none => exact ⟨n, _, rfl⟩
    | some a => exact ⟨a, _, rfl⟩

/-- Printed selections start with a name token or a spread. -/
theorem printSelection_head (s : Selection) :
    ∃ tl, (∃ nm, printSelection s = Token.name nm :: tl) ∨
      printSelection s = Token.punct .spread :: tl := by
  cases s with
  | field f =>
    obtain ⟨nm, tl, h⟩ := printField_head f
    exact ⟨tl, .inl ⟨nm, by simp [printSelection, h]⟩⟩
  | fragmentSpread n => exact ⟨[Token.name n], .inr rfl⟩

/-- Printed selections are non-empty. -/
theorem printSelection_length (s : Selection) :
    1 ≤ (printSelection s).length := by
  obtain ⟨tl, h | h⟩ := printSelection_head s
  · obtain ⟨nm, h⟩ := h
    simp [h]
  · simp [h]

/-- A selection-start stream is a legal field follower. -/
theorem selStart_followOk (ts : List Token) (h : selStart ts = true) :
    followOk ts = true := by
  match ts, h with
  | Token.name _ :: _, _ => rfl
  | Token.punct .spread :: _, _ => rfl

/-- Printed selections make selection-start streams. -/
theorem printSelection_selStart (s : Selection) (rest : List Token) :
    selStart (printSelection s ++ rest) = true := by
  obtain ⟨tl, h | h⟩ := printSelection_head s
  · obtain ⟨nm, h⟩ := h
    simp [h, selStart]
  · simp [h, selStart]

/-- Inversion of `parseValue` on printed values. -/
theorem parseValue_inv (v : Value) (rest : List Token) :
    parseValue (printValue v ++ rest) = some (v, rest) := by
  cases v <;> simp [printValue, parseValue]

/-- Inversion of `parseArgItems` on printed non-empty argument lists
followed by the closing parenthesis. -/
theorem parseArgItems_inv :
    ∀ (args : List Argument) (fuel : Nat) (rest : List Token),
      args ≠ [] → 4 * (printArgItemsT args).length + 1 ≤ fuel →
      parseArgItems fuel (printArgItemsT args ++ Token.punct .rparen :: rest) =
        some (args, Token.punct .rparen :: rest) := by
  intro args
  induction args with
  | nil => intro fuel rest h _; exact absurd rfl h
  | cons a as ih =>
    intro fuel rest _ hf
    obtain ⟨n, v⟩ := a
    obtain ⟨f, rfl⟩ : ∃ f, fuel = f + 1 := ⟨fuel - 1, by omega⟩
    simp only [printArgItemsT, printArg, List.cons_append, List.append_assoc]
    simp only [parseArgItems]
    rw [parseValue_inv v (printArgItemsT as ++ Token.punct .rparen :: rest)]
    cases as with
    | nil =>
      simp [printArgItemsT]
    | cons b bs =>
      have hlen : 1 ≤ (printValue b.value).length := printValue_length b.value
      have hstep := ih f rest (by simp) (by
        simp only [printArgItemsT, printArg, List.length_append,
          List.length_cons] at hf ⊢
        omega)
      obtain ⟨bn, bv⟩ := b
      simp only [printArgItemsT, printArg, List.cons_append] at hstep ⊢
      rw [hstep]

/-- The field tail factors into arguments then the optional braced set. -/
theorem printFieldTail_eq (args : List Argument) (sels : SelectionSet) :
    printFieldTail args sels = printArgsT args ++ printSelSet sels := by
  cases sels <;> rfl

/-- Head facts of a legal field follower. -/
theorem followOk_heads : ∀ ts : List Token, followOk ts = true →
    ts.head? ≠ some (Token.punct .colon) ∧
    ts.head? ≠ some (Token.punct .lparen) ∧
    ts.head? ≠ some (Token.punct .lbrace) := by
  intro ts h
  refine ⟨?_, ?_, ?_⟩ <;> intro hh <;>
    (cases ts with
     | nil => simp at hh
     | cons t r =>
       simp only [List.head?_cons, Option.some.injEq] at hh
       subst hh
       simp [followOk] at h)

/-- Reduction of `parseField` when the stream cannot continue an alias. -/
theorem parseField_noalias (f : Nat) (n : String) :
    ∀ X : List Token, X.head? ≠ some (Token.punct .colon) →
      parseField (f + 1) (Token.name n :: X) = parseFieldRest f none n X := by
  intro X hX
  match X with
  | [] => rfl
  | Token.name _ :: _ => rfl
  | Token.intTok _ :: _ => rfl
  | Token.punct .lbrace :: _ => rfl
  | Token.punct .rbrace :: _ => rfl
  | Token.punct .lparen :: _ => rfl
  | Token.punct .rparen :: _ => rfl
  | Token.punct .colon :: _ => exact absurd rfl hX
  | Token.punct .dollar :: _ => rfl
  | Token.punct .spread :: _ => rfl

/-- Reduction of `parseFieldRest` when the stream opens no parenthesis. -/
theorem parseFieldRest_noparen (f : Nat) (al : Option String) (n : String) :
    ∀ X : List Token, X.head? ≠ some (Token.punct .lparen) →
      parseFieldRest (f + 1) al n X = parseFieldSels f al n [] X := by
  intro X hX
  match X with
  | [] => rfl
  | Token.name _ :: _ => rfl
  | Token.intTok _ :: _ => rfl
  | Token.punct .lbrace :: _ => rfl
  | Token.punct .rbrace :: _ => rfl
  | Token.punct .lparen :: _ => exact absurd rfl hX
  | Token.punct .rparen :: _ => rfl
  | Token.punct .colon :: _ => rfl
  | Token.punct .dollar :: _ => rfl
  | Token.punct .spread :: _ => rfl

/-- Reduction of `parseFieldSels` when the stream opens no brace. -/
theorem parseFieldSels_nobrace (f : Nat) (al : Option String) (n : String)
    (args : List Argument) :
    ∀ X : List Token, X.head? ≠ some (Token.punct .lbrace) →
      parseFieldSels (f + 1) al n args X = some (.mk al n args .nil, X) := by
  intro X hX
  match X with
  | [] => rfl
  | Token.name _ :: _ => rfl
  | Token.intTok _ :: _ => rfl
  | Token.punct .lbrace :: _ => exact absurd rfl hX
  | Token.punct .rbrace :: _ => rfl
  | Token.punct .lparen :: _ => rfl
  | Token.punct .rparen :: _ => rfl
  | Token.punct .colon :: _ => rfl
  | Token.punct .dollar :: _ => rfl
  | Token.punct .spread :: _ => rfl

/-- A printed field tail followed by a legal follower never opens with a
colon. -/
theorem printFieldTail_head (args : List Argument) (sels : SelectionSet)
    (rest : List Token) (hfo : followOk rest = true) :
    (printFieldTail args sels ++ rest).head? ≠ some (Token.punct .colon) := by
  rw [printFieldTail_eq]
  cases args with
  | cons a as => simp [printArgsT]
  | nil =>
    cases sels with
    | cons s r => simp [printArgsT, printSelSet]
    | nil =>
      simpa [printArgsT, printSelSet] using (followOk_heads rest hfo).1

/-- A printed optional selection set followed by a legal follower never
opens with a parenthesis. -/
theorem printSelSet_head (sels : SelectionSet) (rest : List Token)
    (hfo : followOk rest = true) :
    (printSelSet sels ++ rest).head? ≠ some (Token.punct .lparen) := by
  cases sels with
  | cons s r => simp [printSelSet]
  | nil => simpa [printSelSet] using (followOk_heads rest hfo).2.1

mutual

/-- Inversion of `parseFieldSels` on a printed optional selection set. -/
theorem parseFieldSels_inv (sels : SelectionSet) :
    ∀ (fuel : Nat) (al : Option String) (n : String) (args : List Argument)
      (rest : List Token), followOk rest = true →
      4 * (printSelSet sels).length + 2 ≤ fuel →
      parseFieldSels fuel al n args (printSelSet sels ++ rest) =
        some (.mk al n args sels, rest) := by
  intro fuel al n args rest hfo hf
  obtain ⟨f, rfl⟩ : ∃ f, fuel = f + 1 := ⟨fuel - 1, by omega⟩
  cases sels with
  | nil =>
    simp only [printSelSet, List.nil_append]
    exact parseFieldSels_nobrace f al n args rest (followOk_heads rest hfo).2.2
  | cons s r =>
    simp only [printSelSet, List.cons_append, List.append_assoc,
      List.singleton_append]
    simp only [parseFieldSels]
    have hsels : parseSels f (printSels (.cons s r) ++ Token.punct .rbrace :: rest) =
        some (.cons s r, Token.punct .rbrace :: rest) := by
      apply parseSels_inv
      · rfl
      · simp only [printSelSet, List.length_cons, List.length_append,
          printSels] at hf ⊢
        omega
    simp only [printSels, List.append_assoc] at hsels
    simp only [List.nil_append]
    rw [hsels]
termination_by 2 * sizeOf sels + 1
decreasing_by
  all_goals subst_vars
  all_goals simp_wf
  all_goals
    first
    | omega
    | (have h1 : 1 ≤ sizeOf args := by cases args <;> simp_arith
       omega)

/-- Inversion of `parseSels` on a printed non-empty selection-set body in
front of its closing brace. -/
theorem parseSels_inv (sl : SelectionSet) :
    ∀ (fuel : Nat) (rest : List Token), sl.isCons = true →
      4 * (printSels sl).length + 6 ≤ fuel →
      parseSels fuel (printSels sl ++ Token.punct .rbrace :: rest) =
        some (sl, Token.punct .rbrace :: rest) := by
  intro fuel rest hcons hf
  cases sl with
  | nil => simp [SelectionSet.isCons] at hcons
  | cons s r =>
    obtain ⟨f, rfl⟩ : ∃ f, fuel = f + 1 := ⟨fuel - 1, by omega⟩
    simp only [printSels, List.append_assoc]
    simp only [parseSels]
    have hfo2 : followOk (printSels r ++ Token.punct .rbrace :: rest) = true := by
      cases r with
      | nil => rfl
      | cons s2 r2 =>
        apply selStart_followOk
        simp only [printSels, List.append_assoc]
        exact printSelection_selStart s2 _
    have hsel : parseSelection f
        (printSelection s ++ (printSels r ++ Token.punct .rbrace :: rest)) =
        some (s, printSels r ++ Token.punct .rbrace :: rest) := by
      apply parseSelection_inv s f _ hfo2
      simp only [printSels, List.length_append] at hf ⊢
      omega
    rw [hsel]
    cases r with
    | nil =>
      simp [printSels]
    | cons s2 r2 =>
      have hrec : parseSels f (printSels (.cons s2 r2) ++ Token.punct .rbrace :: rest) =
          some (.cons s2 r2, Token.punct .rbrace :: rest) := by
        apply parseSels_inv
        · rfl
        · have hs1 : 1 ≤ (printSelection s).length := printSelection_length s
          simp only [printSels, List.length_append] at hf ⊢
          omega
      obtain ⟨tl, hcase⟩ := printSelection_head s2
      rcases hcase with ⟨nm, hcase⟩ | hcase <;>
        (simp only [printSels, hcase, List.cons_append, List.append_assoc] at hrec ⊢
         rw [hrec])
termination_by 2 * sizeOf sl
decreasing_by
  all_goals subst_vars
  all_goals simp_wf
  all_goals
    first
    | omega
    | (have h1 : 1 ≤ sizeOf args := by cases args <;> simp_arith
       omega)

/-- Inversion of `parseSelection` on a printed selection. -/
theorem parseSelection_inv (s : Selection) :
    ∀ (fuel : Nat) (rest : List Token), followOk rest = true →
      4 * (printSelection s).length + 5 ≤ fuel →
      parseSelection fuel (printSelection s ++ rest) = some (s, rest) := by
  intro fuel rest hfo hf
  obtain ⟨f, rfl⟩ : ∃ f, fuel = f + 1 := ⟨fuel - 1, by omega⟩
  cases s with
  | fragmentSpread nm =>
    simp [printSelection, parseSelection]
  | field fld =>
    have hrec : parseField f (printField fld ++ rest) = some (fld, rest) := by
      apply parseField_inv fld f rest hfo
      simp only [printSelection, List.length_append] at hf ⊢
      omega
    obtain ⟨nm, tl, hpf⟩ := printField_head fld
    rw [hpf] at hrec
    simp only [printSelection, hpf, List.cons_append]
    simp only [parseSelection, List.cons_append] at hrec ⊢
    rw [hrec]
termination_by 2 * sizeOf s
decreasing_by
  all_goals subst_vars
  all_goals simp_wf
  all_goals
    first
    | omega
    | (have h1 : 1 ≤ sizeOf args := by cases args <;> simp_arith
       omega)

/-- Inversion of `parseField` on a printed field. -/
theorem parseField_inv (fld : Field) :
    ∀ (fuel : Nat) (rest : List Token), followOk rest = true →
      4 * (printField fld).length + 4 ≤ fuel →
      parseField fuel (printField fld ++ rest) = some (fld, rest) := by
  intro fuel rest hfo hf
  obtain ⟨f, rfl⟩ : ∃ f, fuel = f + 1 := ⟨fuel - 1, by omega⟩
  cases fld with
  | mk al n args sels =>
    cases al with
    | some a =>
      simp only [printField, List.cons_append, List.append_assoc,
        List.nil_append]
      rw [show parseField (f + 1)
          (Token.name a :: Token.punct .colon :: Token.name n ::
            (printFieldTail args sels ++ rest)) =
          parseFieldRest f (some a) n (printFieldTail args sels ++ rest)
        from rfl]
      apply parseFieldRest_inv args sels f (some a) n rest hfo
      simp only [printField, List.length_append, List.length_cons] at hf ⊢
      omega
    | none =>
      simp only [printField, List.nil_append, List.cons_append]
      rw [parseField_noalias f n (printFieldTail args sels ++ rest)
        (printFieldTail_head args sels rest hfo)]
      apply parseFieldRest_inv args sels f none n rest hfo
      simp only [printField, List.length_append, List.length_cons] at hf ⊢
      omega
termination_by 2 * sizeOf fld
decreasing_by
  all_goals subst_vars
  all_goals simp_wf
  all_goals
    first
    | omega
    | (have h1 : 1 ≤ sizeOf args := by cases args <;> simp_arith
       omega)

/-- Inversion of `parseFieldRest` on a printed field tail. -/
theorem parseFieldRest_inv (args : List Argument) (sels : SelectionSet) :
    ∀ (fuel : Nat) (al : Option String) (n : String) (rest : List Token),
      followOk rest = true →
      4 * (printFieldTail args sels).length + 3 ≤ fuel →
      parseFieldRest fuel al n (printFieldTail args sels ++ rest) =
        some (.mk al n args sels, rest) := by
  intro fuel al n rest hfo hf
  obtain ⟨f, rfl⟩ : ∃ f, fuel = f + 1 := ⟨fuel - 1, by omega⟩
  rw [printFieldTail_eq] at hf ⊢
  cases args with
  | nil =>
    simp only [printArgsT, List.nil_append] at hf ⊢
    rw [parseFieldRest_noparen f al n (printSelSet sels ++ rest)
      (printSelSet_head sels rest hfo)]
    apply parseFieldSels_inv sels f al n [] rest hfo
    omega
  | cons a as =>
    simp only [printArgsT, List.cons_append, List.append_assoc,
      List.singleton_append, List.nil_append]
    simp only [parseFieldRest]
    have hargs : parseArgItems f
        (printArgItemsT (a :: as) ++
          Token.punct .rparen :: (printSelSet sels ++ rest)) =
        some (a :: as, Token.punct .rparen :: (printSelSet sels ++ rest)) := by
      apply parseArgItems_inv (a :: as) f _ (by simp)
      simp only [printArgsT, List.length_cons, List.length_append] at hf ⊢
      omega
    rw [hargs]
    have hsels : parseFieldSels f al n (a :: as) (printSelSet sels ++ rest) =
        some (.mk al n (a :: as) sels, rest) := by
      apply parseFieldSels_inv sels f al n (a :: as) rest hfo
      simp only [printArgsT, List.length_cons, List.length_append] at hf ⊢
      omega
    exact hsels
termination_by 2 * (sizeOf args + sizeOf sels)
decreasing_by
  all_goals subst_vars
  all_goals simp_wf
  all_goals
    first
    | omega
    | (have h1 : 1 ≤ sizeOf args := by cases args <;> simp_arith
       omega)

end

/-- Printed value tokens are lexable when the value is well-formed. -/
theorem printValue_wfT (v : Value) (h : v.wfV = true) :
    (printValue v).all Token.wfT = true := by
  cases v <;> simpa [printValue, Token.wfT, Value.wfV] using h

/-- Printed argument-list tokens are lexable. -/
theorem printArgItemsT_wfT :
    ∀ args : List Argument, args.all Argument.wfA = true →
      (printArgItemsT args).all Token.wfT = true := by
  intro args
  induction args with
  | nil => intro _; rfl
  | cons a as ih =>
    intro h
    rw [List.all_cons, Bool.and_eq_true] at h
    obtain ⟨ha, has⟩ := h
    simp only [Argument.wfA, Bool.and_eq_true] at ha
    simp only [printArgItemsT, List.all_append]
    rw [Bool.and_eq_true]
    constructor
    · simp only [printArg, List.all_cons, Bool.and_eq_true]
      exact ⟨ha.1, rfl, printValue_wfT a.value ha.2⟩
    · exact ih has

/-- Printed parenthesised argument lists are lexable. -/
theorem printArgsT_wfT (args : List Argument)
    (h : args.all Argument.wfA = true) :
    (printArgsT args).all Token.wfT = true := by
  cases args with
  | nil => rfl
  | cons a as =>
    have h2 := printArgItemsT_wfT (a :: as) h
    simp only [printArgsT, List.all_cons, List.all_append, Bool.and_eq_true]
    simp [Token.wfT, h2]

mutual

/-- Printed selection tokens are lexable. -/
theorem printSelection_wfT (s : Selection) (h : s.wfSel = true) :
    (printSelection s).all Token.wfT = true := by
  cases s with
  | field fld =>
    simp only [printSelection]
    exact printField_wfT fld (by simpa [Selection.wfSel] using h)
  | fragmentSpread n =>
    simpa [printSelection, Token.wfT, Selection.wfSel] using h

/-- Printed field tokens are lexable. -/
theorem printField_wfT (fld : Field) (h : fld.wfF = true) :
    (printField fld).all Token.wfT = true := by
  obtain ⟨al, n, args, sels⟩ := fld
  simp only [Field.wfF, Bool.and_eq_true] at h
  obtain ⟨⟨⟨hal, hn⟩, hargs⟩, hsels⟩ := h
  have hargsT := printArgsT_wfT args hargs
  have hselsT : (printSelSet sels).all Token.wfT = true := by
    cases sels with
    | nil => rfl
    | cons s r =>
      simp only [SelectionSet.wfS, Bool.and_eq_true] at hsels
      have h1 := printSelection_wfT s hsels.1
      have h2 := printSels_wfT r hsels.2
      simp only [printSelSet, List.all_cons, List.all_append,
        Bool.and_eq_true]
      simp [Token.wfT, h1, h2]
  have halT : (match al with
      | none => ([] : List Token)
      | some a => [Token.name a, Token.punct .colon]).all Token.wfT = true := by
    cases al with
    | none => rfl
    | some a => simp [Token.wfT]; exact hal
  simp only [printField, printFieldTail_eq, List.all_append, List.all_cons,
    Bool.and_eq_true]
  simp [Token.wfT, hn, hargsT, hselsT]
  simpa [Token.wfT] using halT

/-- Printed selection-set body tokens are lexable. -/
theorem printSels_wfT (sl : SelectionSet) (h : sl.wfS = true) :
    (printSels sl).all Token.wfT = true := by
  cases sl with
  | nil => rfl
  | cons s r =>
    simp only [SelectionSet.wfS, Bool.and_eq_true] at h
    simp only [printSels, List.all_append, Bool.and_eq_true]
    exact ⟨printSelection_wfT s h.1, printSels_wfT r h.2⟩

end

end GraphQL
